import Mathlib

/-!
Verification of the zpl label-printer driver.

Shallow embedding of the core components:
* the command model and its textual encoding (src/command.rs),
* the raster codec: bit packing, base64, CRC-16 (src/util/image.rs, src/util/crc.rs),
* the line reader framing response bytes (src/read.rs),
* the device channel: status query and print-wait loop (src/device/mod.rs),
* the bounded job queue and status flag of the connection driver
  (server/src/physical_printer.rs).

Machine integers are modelled as Nat (u8/u16/u32/u64/usize) and Int (i16/isize);
byte strings as List Nat.  I/O is modelled by explicit read/write ends: a write
end records the transcript of bytes written and carries a script of planned
write failures, a read end is a buffered byte stream presented as the list of
chunks successive socket reads return (an exhausted or empty chunk models the
peer closing the stream).  External libraries are embedded by their documented
algorithms (crc crate CRC_16_KERMIT, base64 STANDARD); the flate2 deflate
transform is an abstract parameter since no claim depends on its output bytes.
-/

set_option maxRecDepth 100000

deriving instance DecidableEq for Except

namespace Zpl

/-! ## Command model (src/command.rs) -/

inductive PostPrintAction
  | TearOff
  | Cut
deriving DecidableEq, Repr

inductive MediaType
  | Direct
  | Transfer
deriving DecidableEq, Repr

inductive BackfeedSequence
  | AfterPrinting
  | BeforePrinting
  | Default
  | Off
  | Percent (p : Nat)
deriving DecidableEq, Repr

inductive MediaTracking
  | Continuous
  | ContinuousVariableLength
  | NonContinuousWebSensing
  | NonContinuousMarked (offset : Int)
  | Autodetect
deriving DecidableEq, Repr

/-- The identifier tag of a compressed image encoding (util/image.rs). -/
inductive CompressedId
  | B64
  | Z64
deriving DecidableEq, Repr

/-- SerializedImage (util/image.rs): either the uncompressed hex-nibble
encoding or the compressed + checksummed encoding. -/
inductive SerializedImage
  | AsciiHex (byte_count total_field_count bytes_per_row : Nat) (data : String)
  | Compressed (byte_count total_field_count bytes_per_row : Nat) (data : String)
      (id : CompressedId) (crc : Nat)
deriving DecidableEq, Repr

def SerializedImage.dataOf : SerializedImage → String
  | .AsciiHex _ _ _ d => d
  | .Compressed _ _ _ d _ _ => d

def SerializedImage.crcOf : SerializedImage → Nat
  | .AsciiHex _ _ _ _ => 0
  | .Compressed _ _ _ _ _ c => c

/-- ZplCommand (src/command.rs).  The two command-character configuration
commands are named SetControlCommandLead / SetFormatCommandLead here. -/
inductive ZplCommand
  | Raw (command : String) (response_lines : Nat)
  | StartLabel
  | EndLabel
  | PersistConfiguration
  | SetDelimiter (delimiter : Char)
  | SetControlCommandLead (c : Char)
  | SetFormatCommandLead (c : Char)
  | SetBackfeedSequence (s : BackfeedSequence)
  | SetMediaTracking (t : MediaTracking)
  | SetDarkness (level : Nat)
  | SetEncoding (e : Nat)
  | SetInverted (i : Bool)
  | SetHalfDensity (d : Bool)
  | SetHome (x y : Nat)
  | SetSpeed (print slew : Nat)
  | SetMediaType (t : MediaType)
  | SetPrintWidth (w : Nat)
  | SetLabelLength (l : Nat)
  | SetPostPrintAction (a : PostPrintAction)
  | SetHorizontalShift (s : Nat)
  | SetVerticalShift (s : Int)
  | SetTearOffPosition (p : Int)
  | SetMirrored (enabled : Bool)
  | SetFlipped (enabled : Bool)
  | MoveOrigin (x y : Nat)
  | PrintQuantity (total pause_and_cut_after replicates_per_serial : Nat) (cut_only : Bool)
  | RenderImage (img : SerializedImage)
  | FieldOrigin (x y : Nat)
  | FieldData (data : String)
  | FieldModeQRCode (zoom : Nat)
  | RequestHostIdentification
  | RequestHostRamStatus
  | RequestHostStatus
deriving DecidableEq, Repr

/-- ZplCommand::expected_response_lines. -/
def expectedResponseLines : ZplCommand → Nat
  | .RequestHostIdentification => 1
  | .RequestHostRamStatus => 1
  | .RequestHostStatus => 3
  | .Raw _ response_lines => response_lines
  | _ => 0

/-! ### Rust format! helpers

`natStr`/`intStr` render the default `{}` display of unsigned/signed integers.
`padZeroLeft k s` is the `{:0>k}` specifier: right-align in a field of `k`
filled with the character 0.  `signedZeroPad w i` is the `{:>+0w}` specifier
on an integer: mandatory sign followed by sign-aware zero padding to total
width `w`. -/

def natStr (n : Nat) : String := Nat.repr n

def intStr (i : Int) : String :=
  if i < 0 then "-" ++ natStr i.natAbs else natStr i.natAbs

def padZeroLeft (k : Nat) (s : String) : String :=
  if s.length < k then String.mk (List.replicate (k - s.length) '0') ++ s else s

def signedZeroPad (w : Nat) (i : Int) : String :=
  let sign := if i < 0 then "-" else "+"
  let digits := natStr i.natAbs
  sign ++ padZeroLeft (w - 1) digits

/-- The From ZplCommand for String conversion (src/command.rs). -/
def encodeCommand : ZplCommand → String
  | .Raw text _ => text
  | .StartLabel => "^XA"
  | .EndLabel => "^XZ"
  | .PersistConfiguration => "^JUS"
  | .SetDelimiter delimiter => "~CD" ++ toString delimiter
  | .SetControlCommandLead c => "~CT" ++ toString c
  | .SetFormatCommandLead c => "~CC" ++ toString c
  | .SetBackfeedSequence s =>
    let value := match s with
      | .AfterPrinting => "A"
      | .BeforePrinting => "B"
      | .Default => "N"
      | .Off => "O"
      | .Percent p => natStr p
    "~JS" ++ value
  | .SetMediaTracking t =>
    let tv := match t with
      | .Continuous => "N"
      | .ContinuousVariableLength => "V"
      | .NonContinuousWebSensing => "W"
      | .NonContinuousMarked offset => "M," ++ intStr offset
      | .Autodetect => "A"
    "^MN" ++ tv
  | .SetHalfDensity d => "^JM" ++ (if d then "B" else "A")
  | .SetDarkness e => "~SD" ++ natStr e
  | .SetEncoding e => "^CI" ++ natStr e
  | .SetHome x y => "^LH" ++ natStr x ++ "," ++ natStr y
  | .SetInverted i => "^LR" ++ (if i then "Y" else "N")
  | .SetMediaType t => "^MT" ++ (match t with | .Direct => "D" | .Transfer => "T")
  | .SetSpeed print slew => "^PR" ++ natStr print ++ "," ++ natStr slew
  | .SetPrintWidth w => "^PW" ++ padZeroLeft 3 (natStr w)
  | .SetLabelLength l => "^LL" ++ padZeroLeft 4 (natStr l)
  | .SetPostPrintAction a => "^MM" ++ (match a with | .TearOff => "T" | .Cut => "C")
  | .SetHorizontalShift s => "^LS" ++ natStr s
  | .SetVerticalShift s => "^LT" ++ intStr s
  | .SetTearOffPosition p => "~TA" ++ signedZeroPad 4 p
  | .SetMirrored enabled => "^PM" ++ (if enabled then "Y" else "N")
  | .SetFlipped enabled => "^PO" ++ (if enabled then "I" else "N")
  | .MoveOrigin x y => "^FO" ++ natStr x ++ "," ++ natStr y
  | .PrintQuantity total pause replicates cut_only =>
    "^PQ" ++ natStr total ++ "," ++ natStr pause ++ "," ++ natStr replicates ++ ","
      ++ (if cut_only then "Y" else "N")
  | .RenderImage img =>
    -- The RenderImage arm destructures the four shared fields
    -- byte_count, total_field_count, bytes_per_row, data and uses no others.
    let bc := match img with
      | .AsciiHex byte_count _ _ _ => byte_count
      | .Compressed byte_count _ _ _ _ _ => byte_count
    let tfc := match img with
      | .AsciiHex _ total_field_count _ _ => total_field_count
      | .Compressed _ total_field_count _ _ _ _ => total_field_count
    let bpr := match img with
      | .AsciiHex _ _ bytes_per_row _ => bytes_per_row
      | .Compressed _ _ bytes_per_row _ _ _ => bytes_per_row
    "^GFA," ++ natStr bc ++ "," ++ natStr tfc ++ "," ++ natStr bpr ++ ","
      ++ img.dataOf ++ "^FS"
  | .FieldOrigin x y => "^FO" ++ natStr x ++ "," ++ natStr y
  | .FieldData data => "^FD" ++ data
  | .FieldModeQRCode zoom => "^BQN,2," ++ natStr zoom ++ ",Q,7"
  | .RequestHostIdentification => "~HI"
  | .RequestHostRamStatus => "~HM"
  | .RequestHostStatus => "~HS"

/-- Rust slice join with separator, as used by From CommandSequence for String
(join of the individual encodings with a newline). -/
def joinSep (sep : String) : List String → String
  | [] => ""
  | [x] => x
  | x :: rest => x ++ sep ++ joinSep sep rest

/-- From CommandSequence for String: individual encodings joined by newline. -/
def encodeSequence (l : List ZplCommand) : String :=
  joinSep ("\n") (l.map encodeCommand)

/-- CommandSequence::expected_response_lines / total_expected_response_lines. -/
def totalExpectedResponseLines (l : List ZplCommand) : Nat :=
  (l.map expectedResponseLines).sum

example : encodeSequence [.SetPrintWidth 684, .SetLabelLength 384] = "^PW684\n^LL0384" := by
  decide

/-! ## Raster codec (src/util/image.rs, src/util/crc.rs) -/

/-- A grayscale image: dimensions plus the luma values of the pixels listed
row-major, as iterated by GrayImage::pixels. -/
structure GrayImage where
  width : Nat
  height : Nat
  pixels : List Nat
deriving DecidableEq, Repr

/-- Fuelled worker for `chunksOf`; the fuel is an upper bound on the list
length, so the recursion is structural and reduces in the kernel. -/
def chunksOfF (n : Nat) : Nat → List α → List (List α)
  | _, [] => []
  | 0, _ :: _ => []
  | fuel + 1, x :: xs => (x :: xs).take n :: chunksOfF n fuel ((x :: xs).drop n)

/-- Itertools chunks on the non-panicking executions: split a sequence into
consecutive groups of `n` elements, the final group possibly shorter.  The
source's chunks method asserts the size is nonzero before producing any
group; `chunksOfChecked` models that assert, and this function is its core
for nonzero sizes (the size-zero branch here is never reached through the
checked model). -/
def chunksOf (n : Nat) (l : List α) : List (List α) :=
  if n = 0 then [] else chunksOfF n l.length l

/-- Itertools chunks as the source executes it: the method asserts the chunk
size is nonzero before producing any group, so a zero size is a panic,
modelled as none. -/
def chunksOfChecked (n : Nat) (l : List α) : Option (List (List α)) :=
  if n = 0 then none else some (chunksOf n l)

theorem chunksOfF_nil (n fuel : Nat) : chunksOfF n fuel ([] : List α) = [] := by
  cases fuel <;> rfl

theorem chunksOfF_fuel_irrel (n : Nat) (hn : n ≠ 0) :
    ∀ (fuel₁ fuel₂ : Nat) (l : List α), l.length ≤ fuel₁ → l.length ≤ fuel₂ →
      chunksOfF n fuel₁ l = chunksOfF n fuel₂ l := by
  intro fuel₁
  induction fuel₁ with
  | zero =>
    intro fuel₂ l h₁ _
    match l with
    | [] => rw [chunksOfF_nil, chunksOfF_nil]
    | x :: xs => simp at h₁
  | succ f ih =>
    intro fuel₂ l h₁ h₂
    match l, fuel₂ with
    | [], _ => rw [chunksOfF_nil, chunksOfF_nil]
    | x :: xs, 0 => simp at h₂
    | x :: xs, g + 1 =>
      simp only [chunksOfF]
      congr 1
      apply ih
      · simp only [List.length_drop, List.length_cons] at *
        omega
      · simp only [List.length_drop, List.length_cons] at *
        omega

theorem chunksOf_nil (n : Nat) : chunksOf n ([] : List α) = [] := by
  cases n <;> simp [chunksOf, chunksOfF]

theorem chunksOf_cons (n : Nat) (x : α) (xs : List α) (hn : n ≠ 0) :
    chunksOf n (x :: xs) = (x :: xs).take n :: chunksOf n ((x :: xs).drop n) := by
  simp only [chunksOf, hn, if_false, List.length_cons, chunksOfF]
  congr 1
  apply chunksOfF_fuel_irrel n hn
  · simp only [List.length_drop, List.length_cons]
    omega
  · exact Nat.le_refl _

/-- The packing performed by bit_encode (src/util/image.rs) on the
non-panicking executions (nonzero width): pack the pixel rows MSB-first into
bytes, one bit per pixel, a pixel being dark when its luma is below 128;
each row is chunked into groups of eight pixels and each group summed into
one byte with bit weights (0..8).rev().  `bitEncodeChecked` models the
width-zero panic of pixels().chunks(width) and agrees with this function
everywhere else. -/
def bitEncode (img : GrayImage) : List Nat :=
  ((chunksOf img.width img.pixels).map fun row =>
    (chunksOf 8 row).map fun grp =>
      ((grp.zip (List.range 8).reverse).map fun p =>
        (if p.1 < 128 then 1 else 0) <<< p.2).sum).flatten

example : bitEncode ⟨8, 1, List.replicate 8 0⟩ = [255] := by decide
example : bitEncode ⟨7, 1, List.replicate 7 0⟩ = [254] := by decide
example : bitEncode ⟨1, 1, [127]⟩ = [0x80] := by decide
example : bitEncode ⟨1, 1, [128]⟩ = [0] := by decide
example : bitEncode ⟨8, 2, [128, 128, 128, 128, 128, 128, 128, 128,
  64, 64, 64, 64, 64, 64, 64, 64]⟩ = [0, 0xff] := by decide

/-- Sequence an option-producing function over a list in order, stopping at
the first failure (a panic raised while processing one row aborts the whole
traversal). -/
def mapOption (f : α → Option β) : List α → Option (List β)
  | [] => some []
  | x :: xs =>
    match f x with
    | none => none
    | some y =>
      match mapOption f xs with
      | none => none
      | some ys => some (y :: ys)

/-- bit_encode as the source executes it: pixels().chunks(width) asserts a
nonzero chunk size, so an image of width zero panics, modelled as none; on a
nonzero width every row is chunked into groups of eight (asserting the
nonzero size 8) and packed as in bitEncode. -/
def bitEncodeChecked (img : GrayImage) : Option (List Nat) :=
  match chunksOfChecked img.width img.pixels with
  | none => none
  | some rows =>
    match mapOption (fun row => chunksOfChecked 8 row) rows with
    | none => none
    | some rowGrps =>
      some ((rowGrps.map fun grps =>
        grps.map fun grp =>
          ((grp.zip (List.range 8).reverse).map fun p =>
            (if p.1 < 128 then 1 else 0) <<< p.2).sum).flatten)

example : bitEncodeChecked ⟨0, 0, []⟩ = none := by decide
example : bitEncodeChecked ⟨0, 3, []⟩ = none := by decide
example : bitEncodeChecked ⟨8, 1, List.replicate 8 0⟩ = some [255] := by decide
example : bitEncodeChecked ⟨7, 2, List.replicate 14 0⟩ = some [254, 254] := by decide

/-- The bytes of an ASCII string (str::as_bytes on ASCII content). -/
def asciiBytes (s : String) : List Nat := s.data.map Char.toNat

/-- One reflected bit step of the crc crate with CRC_16_KERMIT parameters:
polynomial 0x1021 reflected to 0x8408, shifting right. -/
def kermitBit (c : Nat) : Nat :=
  if c % 2 = 1 then (c / 2) ^^^ 0x8408 else c / 2

/-- crc::Crc u16 with CRC_16_KERMIT (src/util/crc.rs checksum): init 0,
reflected input and output, xorout 0. -/
def checksum (data : List Nat) : Nat :=
  data.foldl (fun c b => kermitBit^[8] (c ^^^ (b % 256))) 0

/-- The crc crate check value for CRC_16_KERMIT, 0x2189 over the digits 1 to 9. -/
example : checksum (asciiBytes ("123456789")) = 0x2189 := by decide

/-- Modelled from the spec: the CRC-16/XMODEM checksum named by the claim,
polynomial 0x1021, init 0, non-reflected (shifting left). -/
def crc16Xmodem (data : List Nat) : Nat :=
  data.foldl
    (fun c b =>
      (fun c' => if c' ≥ 0x8000 then ((c' * 2) ^^^ 0x1021) % 0x10000 else (c' * 2) % 0x10000)^[8]
        (c ^^^ ((b % 256) <<< 8)))
    0

/-- The classical CRC-16/XMODEM check value over the digits 1 to 9. -/
example : crc16Xmodem (asciiBytes ("123456789")) = 0x31C3 := by decide

/-- The base64 STANDARD alphabet. -/
def b64Alphabet : List Char :=
  "ABCDEFGHIJKLMNOPQRSTUVWXYZabcdefghijklmnopqrstuvwxyz0123456789+/".data

def b64Char (n : Nat) : Char := b64Alphabet.getD n 'A'

/-- base64 STANDARD encoding with padding (base64 crate, STANDARD engine). -/
def base64Encode : List Nat → String
  | [] => ""
  | [a] =>
    String.mk [b64Char ((a % 256) / 4), b64Char ((a % 256) % 4 * 16)] ++ "=="
  | [a, b] =>
    String.mk [b64Char ((a % 256) / 4), b64Char ((a % 256) % 4 * 16 + (b % 256) / 16),
      b64Char ((b % 256) % 16 * 4)] ++ "="
  | a :: b :: c :: rest =>
    String.mk [b64Char ((a % 256) / 4), b64Char ((a % 256) % 4 * 16 + (b % 256) / 16),
      b64Char ((b % 256) % 16 * 4 + (c % 256) / 64), b64Char ((c % 256) % 64)]
      ++ base64Encode rest

example : base64Encode [255] = "/w==" := by decide
example : base64Encode (asciiBytes ("Man")) = "TWFu" := by decide
example : base64Encode (asciiBytes ("Ma")) = "TWE=" := by decide

/-- SerializedImage::from_compressed (src/util/image.rs).  The flate2
ZlibEncoder at Compression::best is an external collaborator; its byte
transform is taken as the parameter `deflate`.  The checksum is computed over
the base64 text of the deflated payload. -/
def fromCompressed (deflate : List Nat → List Nat) (img : GrayImage) : SerializedImage :=
  let bytes_per_row := (img.width + 8 - 1) / 8
  let total_field_count := bytes_per_row * img.height
  let byte_count := total_field_count
  let encoded := deflate (bitEncode img)
  let data := base64Encode encoded
  .Compressed byte_count total_field_count bytes_per_row data .Z64
    (checksum (asciiBytes data))

/-- SerializedImage::from_base64 (src/util/image.rs): same layout fields,
payload base64 of the raw packed bytes, id B64. -/
def fromBase64 (img : GrayImage) : SerializedImage :=
  let bytes_per_row := (img.width + 8 - 1) / 8
  let total_field_count := bytes_per_row * img.height
  let byte_count := total_field_count
  let encoded := bitEncode img
  let data := base64Encode encoded
  .Compressed byte_count total_field_count bytes_per_row data .B64
    (checksum (asciiBytes data))

/-! ## I/O model

A read end is the receive half of the socket: the bytes already buffered from
prior reads plus the list of chunks that successive socket reads will return.
An exhausted chunk list, or a chunk of zero bytes, is a read returning 0
bytes, i.e. the peer closed the stream.  A write end records the transcript
of everything written and a script of planned outcomes for the successive
write calls (an exhausted script means writes keep succeeding). -/

inductive IOErr
  | brokenPipe
  | dev (code : Nat)
deriving DecidableEq, Repr

structure ReadEnd where
  buf : List Nat
  chunks : List (List Nat)
deriving DecidableEq, Repr

structure WriteEnd where
  failPlan : List (Option IOErr)
  sent : String
deriving DecidableEq, Repr

/-- tokio AsyncWriteExt::write_all on the model write end. -/
def writeAll (tx : WriteEnd) (data : String) : Except IOErr WriteEnd :=
  match tx.failPlan with
  | some e :: _ => .error e
  | none :: rest => .ok { failPlan := rest, sent := tx.sent ++ data }
  | [] => .ok { failPlan := [], sent := tx.sent ++ data }

/-! ## Line reader (src/read.rs) -/

/-- iter().position of the end-of-text byte 0x03. -/
def firstETX : List Nat → Option Nat
  | [] => none
  | b :: rest => if b = 3 then some 0 else (firstETX rest).map (· + 1)

/-- iter().position of the start-of-text byte 0x02. -/
def firstSTX : List Nat → Option Nat
  | [] => none
  | b :: rest => if b = 2 then some 0 else (firstSTX rest).map (· + 1)

/-- The read loop of line_with: keep appending chunks to the buffer until a
chunk contains the end-of-text byte; a read of zero bytes (closed stream) is
a failure.  Returns (position one past the end-of-text byte, filled buffer,
unconsumed chunks). -/
def lineFillLoop : List Nat → List (List Nat) → Option (Nat × List Nat × List (List Nat))
  | _, [] => none
  | buf, c :: rest =>
    if c = [] then none
    else
      match firstETX c with
      | some p => some (buf.length + p + 1, buf ++ c, rest)
      | none => lineFillLoop (buf ++ c) rest

/-- Phase one of line_with: either the buffered bytes already contain the
end-of-text byte, or the read loop runs. -/
def lineFill (buf : List Nat) (chunks : List (List Nat)) :
    Option (Nat × List Nat × List (List Nat)) :=
  match firstETX buf with
  | some p => some (p + 1, buf, chunks)
  | none => lineFillLoop buf chunks

/-- The result of line_with: the DiagnosticString (discarded prefix and
payload) plus the state left behind (the retained buffer and the not yet
consumed chunks of the stream). -/
structure LineResult where
  start : List Nat
  string : List Nat
  newBuf : List Nat
  rest : List (List Nat)
deriving DecidableEq, Repr

/-- line_with (src/read.rs): consume the stream through the next end-of-text
byte; split the frame off the buffer, pop the end-of-text byte, and discard
everything up to and including the first start-of-text byte of the frame. -/
def lineWith (buf : List Nat) (chunks : List (List Nat)) : Except IOErr LineResult :=
  match lineFill buf chunks with
  | none => .error .brokenPipe
  | some (postEtx, buf2, rest) =>
    let tail := buf2.drop postEtx
    let line := (buf2.take postEtx).dropLast
    let start := match firstSTX line with
      | none => 0
      | some n => n + 1
    .ok { start := line.take start, string := line.drop start, newBuf := tail, rest := rest }

example : lineWith [5, 2, 65, 66, 3, 7] [] =
    .ok { start := [5, 2], string := [65, 66], newBuf := [7], rest := [] } := by decide
example : lineWith [] [[2, 65], [66, 3, 9]] =
    .ok { start := [2], string := [65, 66], newBuf := [9], rest := [] } := by decide
example : lineWith [] [[65, 66]] = .error .brokenPipe := by decide

/-- The payload the frame yields: the frame bytes with everything up to and
including the first start-of-text byte discarded. -/
def framePayload (frame : List Nat) : List Nat :=
  match firstSTX frame with
  | none => frame
  | some i => frame.drop (i + 1)

/-- Position of the last start-of-text byte of a frame (used to state the
claim as written). -/
def lastSTX (frame : List Nat) : Option Nat :=
  (firstSTX frame.reverse).map (fun i => frame.length - 1 - i)

/-- Payload as the claim reads: bytes strictly after the last start-of-text
byte preceding the end-of-text byte. -/
def lastStxPayload (frame : List Nat) : List Nat :=
  match lastSTX frame with
  | none => frame
  | some i => frame.drop (i + 1)

/-- tokio read of one framed line, threading the read end. -/
def readLineW (rx : ReadEnd) : Except IOErr (List Nat × ReadEnd) :=
  match lineWith rx.buf rx.chunks with
  | .error e => .error e
  | .ok r => .ok (r.string, { buf := r.newBuf, chunks := r.rest })

/-- Read `n` framed lines in sequence. -/
def readLines : Nat → ReadEnd → Except IOErr (List (List Nat) × ReadEnd)
  | 0, rx => .ok ([], rx)
  | n + 1, rx =>
    match readLineW rx with
    | .error e => .error e
    | .ok (l, rx') =>
      match readLines n rx' with
      | .error e => .error e
      | .ok (ls, rx'') => .ok (l :: ls, rx'')

/-! ## Status decoder (src/device/mod.rs, split_line and the FromField fills) -/

/-- Whether a byte is a UTF-8 continuation byte. -/
def isCont (b : Nat) : Bool := decide (0x80 ≤ b ∧ b ≤ 0xBF)

/-- Constraints on the first continuation byte after the given lead byte
(excluding overlong encodings and surrogates, as str::from_utf8 does). -/
def follow1Ok (lead c1 : Nat) : Bool :=
  if lead = 0xE0 then decide (0xA0 ≤ c1 ∧ c1 ≤ 0xBF)
  else if lead = 0xED then decide (0x80 ≤ c1 ∧ c1 ≤ 0x9F)
  else if lead = 0xF0 then decide (0x90 ≤ c1 ∧ c1 ≤ 0xBF)
  else if lead = 0xF4 then decide (0x80 ≤ c1 ∧ c1 ≤ 0x8F)
  else isCont c1

/-- core::str::from_utf8 validity of a byte sequence. -/
def validUtf8 : List Nat → Bool
  | [] => true
  | b :: rest =>
    if b < 0x80 then validUtf8 rest
    else if 0xC2 ≤ b ∧ b ≤ 0xDF then
      match rest with
      | c1 :: r => isCont c1 && validUtf8 r
      | [] => false
    else if 0xE0 ≤ b ∧ b ≤ 0xEF then
      match rest with
      | c1 :: c2 :: r => follow1Ok b c1 && isCont c2 && validUtf8 r
      | _ => false
    else if 0xF0 ≤ b ∧ b ≤ 0xF4 then
      match rest with
      | c1 :: c2 :: c3 :: r => follow1Ok b c1 && isCont c2 && isCont c3 && validUtf8 r
      | _ => false
    else false

example : validUtf8 (asciiBytes ("8,120,0")) = true := by decide
example : validUtf8 [48, 0xFF, 49] = false := by decide

/-- Split a byte sequence on the comma byte (slice split / str split on a
comma yield the pieces between separators, empty pieces included). -/
def splitComma : List Nat → List (List Nat)
  | [] => [[]]
  | x :: rest =>
    if x = 44 then [] :: splitComma rest
    else
      match splitComma rest with
      | g :: gs => (x :: g) :: gs
      | [] => [[x]]

example : splitComma (asciiBytes ("a,,b")) = [[97], [], [98]] := by decide
example : splitComma [] = [[]] := by decide

def digitVal (b : Nat) : Option Nat :=
  if 48 ≤ b ∧ b ≤ 57 then some (b - 48) else none

def parseDigitsAux : Nat → List Nat → Option Nat
  | acc, [] => some acc
  | acc, b :: r =>
    match digitVal b with
    | none => none
    | some d => parseDigitsAux (acc * 10 + d) r

/-- Rust str::parse for an unsigned integer type with exclusive upper
`bound`: an optional leading plus sign, one or more ASCII digits, and the
value must fit the type. -/
def parseUnsigned (bound : Nat) (bs : List Nat) : Option Nat :=
  let digits := match bs with
    | 43 :: r => r
    | _ => bs
  match digits with
  | [] => none
  | _ =>
    match parseDigitsAux 0 digits with
    | none => none
    | some v => if v < bound then some v else none

example : parseUnsigned (2 ^ 32) (asciiBytes ("0249")) = some 249 := by decide
example : parseUnsigned (2 ^ 32) (asciiBytes ("+12")) = some 12 := by decide
example : parseUnsigned (2 ^ 32) (asciiBytes ("-1")) = none := by decide
example : parseUnsigned (2 ^ 32) (asciiBytes ("")) = none := by decide
example : parseUnsigned 256 (asciiBytes ("256")) = none := by decide

/-- FromField for the unsigned integers: overwrite only when the field
parses. -/
def fillNat (bound : Nat) (cur : Nat) : Option (List Nat) → Nat
  | none => cur
  | some bs =>
    match parseUnsigned bound bs with
    | some v => v
    | none => cur

/-- FromField for bool: parse as u8 and accept only 0 and 1. -/
def fillBool (cur : Bool) : Option (List Nat) → Bool
  | none => cur
  | some bs =>
    match parseUnsigned 256 bs with
    | some 0 => false
    | some 1 => true
    | _ => cur

/-- FromField for String: replace the whole content. -/
def fillStr (cur : List Nat) : Option (List Nat) → List Nat
  | none => cur
  | some bs => bs

/-! ## Host status model (src/command.rs structs) -/

structure HostStatus1 where
  a_communication : Nat := 0
  b_paper_out : Bool := false
  c_pause : Bool := false
  d_label_length : Nat := 0
  e_number_formats : Nat := 0
  f_buffer_full : Bool := false
  g_communication_diagnostics : Bool := false
  h_partial_format : Bool := false
  j_corrupt_ram : Bool := false
  k_temperature_low : Bool := false
  l_temperature_high : Bool := false
deriving DecidableEq, Repr

structure HostStatus2 where
  m_settings : Nat := 0
  o_head_up : Bool := false
  p_ribbon_out : Bool := false
  q_thermal_transfer_mode : Bool := false
  r_print_mode : Nat := 0
  s_print_width_mode : Nat := 0
  t_label_waiting : Bool := false
  u_labels_remaining : Nat := 0
  v_format_printing : Bool := false
  w_number_graphics_stored : Nat := 0
deriving DecidableEq, Repr

structure HostStatus3 where
  x_password : List Nat := []
  y_static_ram : Bool := false
deriving DecidableEq, Repr

structure HostRamStatus where
  total : Nat := 0
  maximum_to_user : Nat := 0
  available_to_user : Nat := 0
deriving DecidableEq, Repr

structure HostIdentification where
  model : List Nat := []
  version : List Nat := []
  dpmm : Nat := 0
  memory : List Nat := []
deriving DecidableEq, Repr

structure HostStatus where
  string1 : HostStatus1 := {}
  string2 : HostStatus2 := {}
  string3 : HostStatus3 := {}
  identification : HostIdentification := {}
  ram_status : HostRamStatus := {}
deriving DecidableEq, Repr

def u8Bound : Nat := 2 ^ 8
def u32Bound : Nat := 2 ^ 32
def u64Bound : Nat := 2 ^ 64

/-- split_line guard: the fields of a comma-separated line, or none when the
line is not valid UTF-8 (in which case split_line leaves every target
untouched). -/
def fieldsOf (l : List Nat) : Option (List (List Nat)) :=
  if validUtf8 l then some (splitComma l) else none

/-- split_line over the identification line (model, version, dpmm, memory). -/
def fillIdentification (hi : HostIdentification) (l : List Nat) : HostIdentification :=
  match fieldsOf l with
  | none => hi
  | some fs =>
    { model := fillStr hi.model (fs.get? 0)
      version := fillStr hi.version (fs.get? 1)
      dpmm := fillNat u32Bound hi.dpmm (fs.get? 2)
      memory := fillStr hi.memory (fs.get? 3) }

/-- split_line over the first status line; the 9th slot is Ignore. -/
def fillStatus1 (s1 : HostStatus1) (l : List Nat) : HostStatus1 :=
  match fieldsOf l with
  | none => s1
  | some fs =>
    { a_communication := fillNat u32Bound s1.a_communication (fs.get? 0)
      b_paper_out := fillBool s1.b_paper_out (fs.get? 1)
      c_pause := fillBool s1.c_pause (fs.get? 2)
      d_label_length := fillNat u32Bound s1.d_label_length (fs.get? 3)
      e_number_formats := fillNat u32Bound s1.e_number_formats (fs.get? 4)
      f_buffer_full := fillBool s1.f_buffer_full (fs.get? 5)
      g_communication_diagnostics := fillBool s1.g_communication_diagnostics (fs.get? 6)
      h_partial_format := fillBool s1.h_partial_format (fs.get? 7)
      j_corrupt_ram := fillBool s1.j_corrupt_ram (fs.get? 9)
      k_temperature_low := fillBool s1.k_temperature_low (fs.get? 10)
      l_temperature_high := fillBool s1.l_temperature_high (fs.get? 11) }

/-- split_line over the second status line; the 2nd slot is Ignore.  The
label-waiting flag sits at field index 7 and the labels-remaining counter at
field index 8. -/
def fillStatus2 (s2 : HostStatus2) (l : List Nat) : HostStatus2 :=
  match fieldsOf l with
  | none => s2
  | some fs =>
    { m_settings := fillNat u8Bound s2.m_settings (fs.get? 0)
      o_head_up := fillBool s2.o_head_up (fs.get? 2)
      p_ribbon_out := fillBool s2.p_ribbon_out (fs.get? 3)
      q_thermal_transfer_mode := fillBool s2.q_thermal_transfer_mode (fs.get? 4)
      r_print_mode := fillNat u32Bound s2.r_print_mode (fs.get? 5)
      s_print_width_mode := fillNat u8Bound s2.s_print_width_mode (fs.get? 6)
      t_label_waiting := fillBool s2.t_label_waiting (fs.get? 7)
      u_labels_remaining := fillNat u32Bound s2.u_labels_remaining (fs.get? 8)
      v_format_printing := fillBool s2.v_format_printing (fs.get? 9)
      w_number_graphics_stored := fillNat u32Bound s2.w_number_graphics_stored (fs.get? 10) }

/-- split_line over the third status line. -/
def fillStatus3 (s3 : HostStatus3) (l : List Nat) : HostStatus3 :=
  match fieldsOf l with
  | none => s3
  | some fs =>
    { x_password := fillStr s3.x_password (fs.get? 0)
      y_static_ram := fillBool s3.y_static_ram (fs.get? 1) }

/-- split_line over the RAM status line. -/
def fillRam (ram : HostRamStatus) (l : List Nat) : HostRamStatus :=
  match fieldsOf l with
  | none => ram
  | some fs =>
    { total := fillNat u32Bound ram.total (fs.get? 0)
      maximum_to_user := fillNat u64Bound ram.maximum_to_user (fs.get? 1)
      available_to_user := fillNat u64Bound ram.available_to_user (fs.get? 2) }

/-- The HostStatus built by request_device_status from the five response
lines, starting from HostStatus::default(). -/
def buildHostStatus (l0 l1 l2 l3 l4 : List Nat) : HostStatus :=
  { identification := fillIdentification {} l0
    string1 := fillStatus1 {} l1
    string2 := fillStatus2 {} l2
    string3 := fillStatus3 {} l3
    ram_status := fillRam {} l4 }

/-! ## Device channel (src/device/mod.rs) -/

/-- ZplPrinter state relevant to the claims: the stored status snapshot. -/
structure PrinterState where
  status : Option HostStatus
deriving DecidableEq, Repr

/-- One iteration of the send-and-read sequence of request_device_status:
write the encoding of the single command, then read back its expected
response lines. -/
def stepCommand (c : ZplCommand) (tx : WriteEnd) (rx : ReadEnd) :
    Except IOErr (List (List Nat) × WriteEnd × ReadEnd) :=
  match writeAll tx (encodeSequence [c]) with
  | .error e => .error e
  | .ok tx' =>
    match readLines (expectedResponseLines c) rx with
    | .error e => .error e
    | .ok (ls, rx') => .ok (ls, tx', rx')

/-- ZplPrinter::request_device_status: interleave the three discovery
commands with their reads; on success parse the five collected lines into a
fresh HostStatus and store it; on any I/O failure abort with that error and
leave the stored snapshot unchanged. -/
def requestDeviceStatus (p : PrinterState) (tx : WriteEnd) (rx : ReadEnd) :
    Except IOErr HostStatus × PrinterState × WriteEnd × ReadEnd :=
  match stepCommand .RequestHostIdentification tx rx with
  | .error e => (.error e, p, tx, rx)
  | .ok (ls1, tx1, rx1) =>
    match stepCommand .RequestHostStatus tx1 rx1 with
    | .error e => (.error e, p, tx1, rx1)
    | .ok (ls2, tx2, rx2) =>
      match stepCommand .RequestHostRamStatus tx2 rx2 with
      | .error e => (.error e, p, tx2, rx2)
      | .ok (ls3, tx3, rx3) =>
        let lines := ls1 ++ ls2 ++ ls3
        let info := buildHostStatus (lines.getD 0 []) (lines.getD 1 [])
          (lines.getD 2 []) (lines.getD 3 []) (lines.getD 4 [])
        (.ok info, ⟨some info⟩, tx3, rx3)

/-! ## wait_for_printed (src/device/mod.rs) -/

/-- usize::MAX, the initial remaining-labels value of wait_for_printed. -/
def usizeMax : Nat := 2 ^ 64 - 1

/-- The response handler of wait_for_printed folded over the lines of one
status poll: only the line at handler counter 1 (the second status line) is
inspected; field index 7 is read, parsed as the remaining-labels count when
it parses, and compared against the byte string "1" for the waiting flag. -/
def pollLines : List (List Nat) → Nat → Nat × Bool → Nat × Bool
  | [], _, st => st
  | line :: rest, line_nr, st =>
    if line_nr ≠ 1 then pollLines rest (line_nr + 1) st
    else
      let parts := splitComma line
      let st_waiting_in_peeloff := parts.get? 7
      let remaining_labels := match st_waiting_in_peeloff with
        | none => st.1
        | some bs =>
          match parseUnsigned u64Bound bs with
          | some nr => nr
          | none => st.1
      let waiting_in_peeloff := st_waiting_in_peeloff = some [49]
      pollLines rest (line_nr + 1) (remaining_labels, waiting_in_peeloff)

/-- ZplPrinter::wait_for_printed over a script of status polls (each poll the
three response lines of one ~HS round trip): loop until the handler state
satisfies the exit test, returning the number of polls consumed; none when
the script is exhausted with the loop still running. -/
def waitForPrinted : List (List (List Nat)) → Nat → Bool → Option Nat
  | [], _, _ => none
  | poll :: rest, remaining_labels, waiting_in_peeloff =>
    let st := pollLines poll 0 (remaining_labels, waiting_in_peeloff)
    if ¬ st.2 ∧ st.1 = 0 then some 1
    else (waitForPrinted rest st.1 st.2).map (· + 1)

/-- A second status line whose label-waiting flag (field index 7) is clear
while the labels-remaining counter (field index 8) still reads five. -/
def statusLine2Five : List Nat := asciiBytes ("000,0,0,0,0,2,4,0,5,0,00000000")

/-! ## send (src/device/mod.rs send_with_response)

The send side iterates over String::from(commands).lines() and writes each
line with write_all — str::lines is modelled character-exactly below.  A
failed write keeps the transcript written so far (partial progress of the
failing write itself is not modelled). -/

/-- str::split on the newline character (pieces between separators). -/
def splitNLChars : List Char → List (List Char)
  | [] => [[]]
  | c :: rest =>
    if c = '\n' then [] :: splitNLChars rest
    else
      match splitNLChars rest with
      | g :: gs => (c :: g) :: gs
      | [] => [[c]]

/-- Remove one trailing carriage return, if present. -/
def stripCR (l : List Char) : List Char :=
  match l.getLast? with
  | some c => if c = '\r' then l.dropLast else l
  | none => l

/-- str::lines on the pieces produced by splitting on the newline character:
every piece except the last was newline-terminated and loses a trailing
carriage return; a final empty piece is not a line. -/
def rustLinesCore : List (List Char) → List (List Char)
  | [] => []
  | [last] => if last = [] then [] else [last]
  | p :: rest => stripCR p :: rustLinesCore rest

/-- str::lines. -/
def rustLines (s : String) : List String :=
  (rustLinesCore (splitNLChars s.data)).map String.mk

example : rustLines ("^PW684\n^LL0384") = ["^PW684", "^LL0384"] := by decide
example : rustLines ("foo\r\nbar\n\nbaz\r") = ["foo", "bar", "", "baz\r"] := by decide
example : rustLines ("") = [] := by decide

/-- Write a list of texts with write_all in order, keeping the transcript of
the successful writes when one fails. -/
def writeLinesAll : List String → WriteEnd → Option IOErr × WriteEnd
  | [], tx => (none, tx)
  | l :: rest, tx =>
    match writeAll tx l with
    | .error e => (some e, tx)
    | .ok tx' => writeLinesAll rest tx'

/-- ZplPrinter::send / send_with_response: write the lines of the joined
encoding (without re-adding the newline separators), then read back the
expected number of response lines.  The ten-millisecond grace sleep taken
when no response lines are expected has no observable effect in this model. -/
def sendWithResponse (seq : List ZplCommand) (tx : WriteEnd) (rx : ReadEnd) :
    Except IOErr Unit × WriteEnd × ReadEnd :=
  match writeLinesAll (rustLines (encodeSequence seq)) tx with
  | (some e, tx') => (.error e, tx', rx)
  | (none, tx') =>
    match readLines (totalExpectedResponseLines seq) rx with
    | .error e => (.error e, tx', rx)
    | .ok (_, rx') => (.ok (), tx', rx')

/-- Concatenation of a list of texts (the byte stream a sequence of write_all
calls produces). -/
def concatAll : List String → String
  | [] => ""
  | s :: rest => s ++ concatAll rest

/-- Concatenation at the character level. -/
def concatChars : List (List Char) → List Char
  | [] => []
  | p :: rest => p ++ concatChars rest

/-- joinSep with a newline, at the character level. -/
def joinCharsSep : List (List Char) → List Char
  | [] => []
  | [x] => x
  | x :: rest => x ++ '\n' :: joinCharsSep rest

/-! ## Connection driver models (server/src/physical_printer.rs) -/

/-- Driver::new: the aggressive bound on the job queue length. -/
def queueBound : Nat := 8

/-- The pending tasks of the bounded tokio mpsc channel, oldest first. -/
def QueueState (τ : Type) := List τ

/-- mpsc::Sender::try_send on the bounded channel: enqueue when below
capacity, otherwise fail immediately handing the task back. -/
def trySend (q : List τ) (t : τ) : Except Unit (List τ) :=
  if q.length < queueBound then .ok (q ++ [t]) else .error ()

/-- Driver::send_job: non-blocking submission; a full queue is reported as
the failed-to-queue error and the queue is left untouched. -/
def sendJob (q : List τ) (t : τ) : Except String Unit × List τ :=
  match trySend q t with
  | .ok q' => (.ok (), q')
  | .error _ => (.error ("failed to queue"), q)

/-- The driver status snapshot fields touched by set_up_status. -/
structure PrinterStatusFlags where
  is_up : Bool
  updated_at : Nat
deriving DecidableEq, Repr

/-- PhysicalPrinter::set_up_status: is_up receives fetch_or of whether a
connection currently exists, updated_at receives the current time. -/
def setUpStatus (st : PrinterStatusFlags) (connection_is_some : Bool) (now : Nat) :
    PrinterStatusFlags :=
  { is_up := st.is_up || connection_is_some, updated_at := now }

/-! ## Support lemmas -/

/-- The published table's description of a numeric field zero-padded to at
least `k` digits. -/
def zeroPadAtLeast (k n : Nat) : String :=
  ⟨List.replicate (k - (Nat.repr n).length) '0' ++ (Nat.repr n).data⟩

theorem padZeroLeft_eq (k : Nat) (s : String) :
    padZeroLeft k s = ⟨List.replicate (k - s.length) '0' ++ s.data⟩ := by
  unfold padZeroLeft
  split
  · obtain ⟨d⟩ := s
    rfl
  · have h0 : k - s.length = 0 := by omega
    rw [h0]
    obtain ⟨d⟩ := s
    rfl

/-! ## C7 -/

/-- C7: encoding is a total function matching the published table:
StartLabel is ^XA, EndLabel is ^XZ, SetPrintWidth is ^PW with the width
zero-padded to at least 3 digits, SetLabelLength is ^LL zero-padded to at
least 4 digits, MoveOrigin is ^FO x,y, PrintQuantity is ^PQ with the four
fields and Y/N for cut-only, SetDarkness is ~SD, the discovery queries are
~HI, ~HS, ~HM, and the tear-off position carries an explicit sign. -/
theorem command_encoding_table :
    encodeCommand .StartLabel = "^XA" ∧
    encodeCommand .EndLabel = "^XZ" ∧
    (∀ w : Nat, encodeCommand (.SetPrintWidth w) = "^PW" ++ zeroPadAtLeast 3 w) ∧
    (∀ l : Nat, encodeCommand (.SetLabelLength l) = "^LL" ++ zeroPadAtLeast 4 l) ∧
    (∀ x y : Nat, encodeCommand (.MoveOrigin x y)
      = "^FO" ++ Nat.repr x ++ "," ++ Nat.repr y) ∧
    (∀ (t pa r : Nat) (c : Bool), encodeCommand (.PrintQuantity t pa r c)
      = "^PQ" ++ Nat.repr t ++ "," ++ Nat.repr pa ++ "," ++ Nat.repr r ++ ","
        ++ (if c then "Y" else "N")) ∧
    (∀ d : Nat, encodeCommand (.SetDarkness d) = "~SD" ++ Nat.repr d) ∧
    encodeCommand .RequestHostIdentification = "~HI" ∧
    encodeCommand .RequestHostStatus = "~HS" ∧
    encodeCommand .RequestHostRamStatus = "~HM" ∧
    (∀ p : Int, ∃ digits : String, encodeCommand (.SetTearOffPosition p)
      = "~TA" ++ (if p < 0 then "-" else "+") ++ digits) ∧
    encodeCommand (.SetPrintWidth 684) = "^PW684" ∧
    encodeCommand (.SetPrintWidth 7) = "^PW007" ∧
    encodeCommand (.SetLabelLength 384) = "^LL0384" ∧
    encodeCommand (.SetTearOffPosition (-20)) = "~TA-020" ∧
    encodeCommand (.SetTearOffPosition 20) = "~TA+020" := by
  refine ⟨rfl, rfl, ?_, ?_, fun _ _ => rfl, fun _ _ _ _ => rfl, fun _ => rfl,
    rfl, rfl, rfl, ?_, by decide, by decide, by decide, by decide, by decide⟩
  · intro w
    show ("^PW") ++ padZeroLeft 3 (natStr w) = _
    rw [padZeroLeft_eq]
    rfl
  · intro l
    show ("^LL") ++ padZeroLeft 4 (natStr l) = _
    rw [padZeroLeft_eq]
    rfl
  · intro p
    refine ⟨padZeroLeft 3 (natStr p.natAbs), ?_⟩
    show ("~TA") ++ signedZeroPad 4 p = _
    unfold signedZeroPad
    rcases Classical.em (p < 0) with h | h <;>
      simp only [h, if_true, if_false] <;>
      rw [← String.append_assoc]

/-! ## C3 -/

/-- C3: the driver job queue has fixed capacity 8 and submission is
non-blocking: below capacity the task is appended, at capacity the
submission fails at once with the queue untouched, so no queued task is ever
dropped. -/
theorem job_queue_backpressure {τ : Type} :
    queueBound = 8 ∧
    (∀ (q : List τ) (t : τ), q.length < queueBound →
      sendJob q t = (.ok (), q ++ [t])) ∧
    (∀ (q : List τ) (t : τ), queueBound ≤ q.length →
      sendJob q t = (.error ("failed to queue"), q)) := by
  refine ⟨rfl, ?_, ?_⟩
  · intro q t h
    simp [sendJob, trySend, h]
  · intro q t h
    have h' : ¬ q.length < queueBound := by omega
    simp [sendJob, trySend, h']

/-- Witness for C3: with eight tasks pending and none consumed, the ninth
submission fails immediately and the queue is unchanged. -/
theorem job_queue_backpressure_witness :
    sendJob (List.range 8) 8 = (.error ("failed to queue"), List.range 8) :=
  job_queue_backpressure.2.2 (List.range 8) 8 (by decide)

/-! ## C10 -/

/-- C10: set_up_status ors the connection-exists bit into is_up, so the
reachability boolean is monotone: once true, no later sequence of status
updates resets it. -/
theorem set_up_status_monotone :
    (∀ (st : PrinterStatusFlags) (conn : Bool) (now : Nat),
      (setUpStatus st conn now).is_up = (st.is_up || conn)) ∧
    (∀ (st : PrinterStatusFlags) (updates : List (Bool × Nat)),
      st.is_up = true →
      (updates.foldl (fun s u => setUpStatus s u.1 u.2) st).is_up = true) := by
  refine ⟨fun _ _ _ => rfl, ?_⟩
  intro st updates
  induction updates generalizing st with
  | nil => intro h; exact h
  | cons u rest ih =>
    intro h
    apply ih
    simp [setUpStatus, h]

/-- Witness for C10: a driver marked up stays up across later updates made
while no connection exists. -/
theorem set_up_status_monotone_witness :
    (([(false, 5), (false, 9)] : List (Bool × Nat)).foldl
      (fun s u => setUpStatus s u.1 u.2) ⟨true, 0⟩).is_up = true :=
  set_up_status_monotone.2 ⟨true, 0⟩ [(false, 5), (false, 9)] rfl

/-! ## C1 -/

/-- C1 (code evaluation): encoding the RenderImage command for a compressed
serialized image emits the bare base64 payload, with neither the Z64 tag in
front of the data field nor the colon-and-checksum suffix the wire format
table prescribes.  Evaluated at the 8-by-1 all-dark image with the deflate
transform instantiated to the identity. -/
theorem render_image_compressed_drops_envelope :
    encodeCommand (.RenderImage (fromCompressed (fun x => x) ⟨8, 1, List.replicate 8 0⟩))
      = "^GFA,1,1,1,/w==^FS" ∧
    ("^GFA,1,1,1,:Z64:".data.isPrefixOf
      (encodeCommand (.RenderImage (fromCompressed (fun x => x) ⟨8, 1, List.replicate 8 0⟩))).data
      = false) := by
  constructor
  · decide
  · decide

/-! ## C2 -/

/-- C2 (code evaluation): wait_for_printed parses the remaining-labels value
out of the 8th comma-separated field — the waiting flag — rather than the
9th field that actually holds the labels-remaining counter: on a poll whose
second line has flag 0 and counter 5 the loop exits immediately even though
five labels remain in the batch. -/
theorem wait_for_printed_reads_flag_field :
    waitForPrinted
      [[asciiBytes ("030,0,0,0249,000,0,0,0,000,0,0,0"), statusLine2Five, asciiBytes ("1234,0")]]
      usizeMax true = some 1 ∧
    (splitComma statusLine2Five).get? 7 = some (asciiBytes ("0")) ∧
    (splitComma statusLine2Five).get? 8 = some (asciiBytes ("5")) ∧
    parseUnsigned u64Bound (asciiBytes ("5")) = some 5 := by
  refine ⟨by decide, by decide, by decide, by decide⟩

/-! ## C4 -/

/-- C4 (counterexample): the checksum stored by from_compressed is not the
CRC-16/XMODEM value of the base64 text — shown at the 8-by-1 all-dark image
with the deflate transform instantiated to the identity, payload text
"/w==". -/
theorem crc_not_xmodem :
    (fromCompressed (fun x => x) ⟨8, 1, List.replicate 8 0⟩).crcOf ≠
      crc16Xmodem (asciiBytes
        ((fromCompressed (fun x => x) ⟨8, 1, List.replicate 8 0⟩).dataOf)) := by
  decide

/-- C4 (amended): for every deflate transform and image, the crc field of the
compressed serialized image equals the CRC-16/KERMIT checksum (polynomial
0x1021 reflected, init 0, reflected input and output) of the base64 text of
the deflated payload, and the data field is that base64 text. -/
theorem crc_is_kermit_of_base64 :
    ∀ (deflate : List Nat → List Nat) (img : GrayImage),
      (fromCompressed deflate img).dataOf = base64Encode (deflate (bitEncode img)) ∧
      (fromCompressed deflate img).crcOf =
        checksum (asciiBytes (base64Encode (deflate (bitEncode img)))) :=
  fun _ _ => ⟨rfl, rfl⟩

/-! ## C9 -/

theorem chunksOf_length_aux (n : Nat) (hn : n ≠ 0) :
    ∀ (fuel : Nat) (l : List α), l.length ≤ fuel →
      (chunksOf n l).length = (l.length + n - 1) / n := by
  intro fuel
  induction fuel with
  | zero =>
    intro l h
    have hl : l = [] := List.eq_nil_of_length_eq_zero (by omega)
    subst hl
    rw [chunksOf_nil]
    simp only [List.length_nil, Nat.zero_add]
    rw [Nat.div_eq_of_lt (by omega)]
  | succ f ih =>
    intro l h
    match l with
    | [] =>
      rw [chunksOf_nil]
      simp only [List.length_nil, Nat.zero_add]
      rw [Nat.div_eq_of_lt (by omega)]
    | x :: xs =>
      rw [chunksOf_cons n x xs hn]
      simp only [List.length_cons]
      have hdrop : ((x :: xs).drop n).length ≤ f := by
        simp only [List.length_drop, List.length_cons]
        simp only [List.length_cons] at h
        omega
      rw [ih _ hdrop]
      simp only [List.length_drop, List.length_cons]
      rcases Nat.lt_or_ge xs.length n with hlt | hge
      · have e1 : xs.length + 1 - n = 0 := by omega
        rw [e1]
        rw [Nat.div_eq_of_lt (show 0 + n - 1 < n by omega)]
        have e2 : xs.length + 1 + n - 1 = xs.length + n := by omega
        rw [e2, Nat.add_div_right _ (by omega : 0 < n),
          Nat.div_eq_of_lt (by omega : xs.length < n)]
      · have e1 : xs.length + 1 - n + n - 1 = xs.length := by omega
        have e2 : xs.length + 1 + n - 1 = xs.length + n := by omega
        rw [e1, e2, Nat.add_div_right _ (by omega : 0 < n)]

theorem chunksOf_length (n : Nat) (hn : n ≠ 0) (l : List α) :
    (chunksOf n l).length = (l.length + n - 1) / n :=
  chunksOf_length_aux n hn l.length l (Nat.le_refl _)

theorem chunksOf_map_length (n : Nat) (hn : n ≠ 0) :
    ∀ (h : Nat) (l : List α), l.length = n * h →
      (chunksOf n l).map List.length = List.replicate h n := by
  intro h
  induction h with
  | zero =>
    intro l hl
    have : l = [] := List.eq_nil_of_length_eq_zero (by omega)
    subst this
    rw [chunksOf_nil]
    rfl
  | succ k ih =>
    intro l hl
    match l with
    | [] =>
      exfalso
      simp only [List.length_nil] at hl
      rcases Nat.mul_eq_zero.mp hl.symm with h1 | h1
      · exact hn h1
      · omega
    | x :: xs =>
      rw [chunksOf_cons n x xs hn]
      simp only [List.length_cons] at hl
      simp only [List.map_cons, List.replicate_succ]
      have hle : n ≤ xs.length + 1 := by
        rw [hl]
        exact Nat.le_mul_of_pos_right n (by omega)
      have ht1 : ((x :: xs).take n).length = n := by
        rw [List.length_take]
        simp only [List.length_cons]
        omega
      have hd : ((x :: xs).drop n).length = n * k := by
        simp only [List.length_drop, List.length_cons]
        rw [hl, Nat.mul_succ]
        omega
      rw [ht1, ih _ hd]

/-- For any image whose pixel list matches its dimensions, the packed output
has ceil(width / 8) * height bytes. -/
theorem bit_encode_len (img : GrayImage)
    (h : img.pixels.length = img.width * img.height) :
    (bitEncode img).length = ((img.width + 7) / 8) * img.height := by
  obtain ⟨w, ht, px⟩ := img
  simp only at h
  unfold bitEncode
  simp only
  rw [List.length_flatten, List.map_map]
  by_cases hw : w = 0
  · subst hw
    have hpx : px = [] := List.eq_nil_of_length_eq_zero (by simpa using h)
    subst hpx
    rw [chunksOf_nil]
    simp
  · have hrows := chunksOf_map_length w hw ht px h
    have hstep : ((chunksOf w px).map
        (List.length ∘ fun row => (chunksOf 8 row).map fun grp =>
          ((grp.zip (List.range 8).reverse).map fun p =>
            (if p.1 < 128 then 1 else 0) <<< p.2).sum))
        = ((chunksOf w px).map ((fun m => (m + 7) / 8) ∘ List.length)) := by
      apply List.map_congr_left
      intro row _
      simp only [Function.comp_apply, List.length_map]
      rw [chunksOf_length 8 (by omega) row]
      have e : row.length + 8 - 1 = row.length + 7 := by omega
      rw [e]
    rw [hstep, ← List.map_map, hrows, List.map_replicate, List.sum_replicate,
      smul_eq_mul, Nat.mul_comm]

theorem chunksOfChecked_pos (n : Nat) (hn : n ≠ 0) (l : List α) :
    chunksOfChecked n l = some (chunksOf n l) := by
  unfold chunksOfChecked
  simp [hn]

theorem mapOption_congr_some (f : α → Option β) (g : α → β)
    (h : ∀ x, f x = some (g x)) : ∀ l : List α, mapOption f l = some (l.map g) := by
  intro l
  induction l with
  | nil => rfl
  | cons x xs ih =>
    simp only [mapOption]
    rw [h x]
    simp only []
    rw [ih]
    rfl

/-- Off the panic path (nonzero width) the checked model agrees with the
total packing function. -/
theorem bitEncodeChecked_pos (img : GrayImage) (hw : img.width ≠ 0) :
    bitEncodeChecked img = some (bitEncode img) := by
  unfold bitEncodeChecked
  rw [chunksOfChecked_pos img.width hw img.pixels]
  simp only []
  rw [mapOption_congr_some (fun row => chunksOfChecked 8 row) (fun row => chunksOf 8 row)
    (fun row => chunksOfChecked_pos 8 (by decide) row) (chunksOf img.width img.pixels)]
  simp only []
  unfold bitEncode
  rw [List.map_map]
  rfl

/-- Every 8-wide single row with all lumas below the threshold packs to the
single byte 0xFF. -/
theorem bit_encode_all_dark (ps : List Nat) (h8 : ps.length = 8)
    (hdark : ∀ p ∈ ps, p < 128) : bitEncode ⟨8, 1, ps⟩ = [255] := by
  have hchunk : chunksOf 8 ps = [ps] := by
    match ps with
    | [] => simp at h8
    | x :: xs =>
      rw [chunksOf_cons 8 x xs (by omega),
        List.take_of_length_le (le_of_eq h8),
        List.drop_eq_nil_of_le (le_of_eq h8), chunksOf_nil]
  unfold bitEncode
  simp only [hchunk, List.map_cons, List.map_nil]
  have hbyte : (ps.zip (List.range 8).reverse).map
      (fun p => (if p.1 < 128 then 1 else 0) <<< p.2)
      = ((List.range 8).reverse).map (fun b => 1 <<< b) := by
    have h1 : (ps.zip (List.range 8).reverse).map
        (fun p => (if p.1 < 128 then 1 else 0) <<< p.2)
        = (ps.zip (List.range 8).reverse).map ((fun b => 1 <<< b) ∘ Prod.snd) := by
      apply List.map_congr_left
      intro p hp
      match p with
      | (a, b) =>
        obtain ⟨ha, _⟩ := List.of_mem_zip hp
        simp [hdark a ha]
    rw [h1, ← List.map_map, List.map_snd_zip _ _ (by simp [h8])]
  rw [hbyte]
  decide

/-- C9 (code evaluation): the claimed 0-by-0 golden vector fails in the code:
bit_encode hands the image width to itertools chunks as the chunk size, and
that method asserts the size is nonzero, so every width-zero image panics
instead of yielding zero bytes — the repository's own convert_luma_to_bits
test asserts zero bytes there, so the claim is right and the code wrong.
Off the panic path the claim holds: for every nonzero width the packing
follows bitEncode; every 8-by-1 all-dark image (all lumas below the
threshold 128) packs to the single byte 0xFF, every 7-by-1 image packs to
exactly one byte, and the output length is ceil(width / 8) * height. -/
theorem bit_encode_zero_width_panics :
    bitEncodeChecked ⟨0, 0, []⟩ = none ∧
    (∀ img : GrayImage, img.width = 0 → bitEncodeChecked img = none) ∧
    (∀ img : GrayImage, img.width ≠ 0 → bitEncodeChecked img = some (bitEncode img)) ∧
    (∀ ps : List Nat, ps.length = 8 → (∀ p ∈ ps, p < 128) →
      bitEncodeChecked ⟨8, 1, ps⟩ = some [255]) ∧
    (∀ ps : List Nat, ps.length = 7 →
      ∃ bytes : List Nat, bitEncodeChecked ⟨7, 1, ps⟩ = some bytes ∧ bytes.length = 1) ∧
    (∀ img : GrayImage, img.width ≠ 0 → img.pixels.length = img.width * img.height →
      ∃ bytes : List Nat, bitEncodeChecked img = some bytes ∧
        bytes.length = ((img.width + 7) / 8) * img.height) := by
  refine ⟨by decide, ?_, bitEncodeChecked_pos, ?_, ?_, ?_⟩
  · intro img h0
    unfold bitEncodeChecked chunksOfChecked
    simp [h0]
  · intro ps h8 hdark
    rw [bitEncodeChecked_pos ⟨8, 1, ps⟩ (by simp), bit_encode_all_dark ps h8 hdark]
  · intro ps h7
    refine ⟨bitEncode ⟨7, 1, ps⟩, bitEncodeChecked_pos ⟨7, 1, ps⟩ (by simp), ?_⟩
    have h := bit_encode_len ⟨7, 1, ps⟩ (by simpa using h7)
    exact h.trans (by norm_num)
  · intro img hw h
    exact ⟨bitEncode img, bitEncodeChecked_pos img hw, bit_encode_len img h⟩

/-- Witness for C9: a concrete width-zero image hits the panic, and the
concrete 8-by-1 all-dark image still packs to 0xFF. -/
theorem bit_encode_zero_width_panics_witness :
    bitEncodeChecked ⟨0, 2, []⟩ = none ∧
    bitEncodeChecked ⟨8, 1, List.replicate 8 0⟩ = some [255] :=
  ⟨bit_encode_zero_width_panics.2.1 ⟨0, 2, []⟩ rfl,
   bit_encode_zero_width_panics.2.2.2.1 (List.replicate 8 0) (by decide) (by decide)⟩

/-! ## C8 -/

theorem firstETX_eq_none_iff (l : List Nat) :
    firstETX l = none ↔ ∀ x ∈ l, x ≠ 3 := by
  induction l with
  | nil => simp [firstETX]
  | cons b rest ih =>
    simp only [firstETX]
    by_cases hb : b = 3
    · simp [hb]
    · simp [hb, ih, Option.map_eq_none']

theorem firstETX_spec (l : List Nat) (i : Nat) (h : firstETX l = some i) :
    i < l.length ∧ l.get? i = some 3 ∧ ∀ j, j < i → l.get? j ≠ some 3 := by
  induction l generalizing i with
  | nil => simp [firstETX] at h
  | cons b rest ih =>
    simp only [firstETX] at h
    by_cases hb : b = 3
    · simp only [hb, if_true] at h
      injection h with h
      subst h
      refine ⟨by simp, by simp [hb], ?_⟩
      intro j hj
      omega
    · simp only [hb, if_false, Option.map_eq_some'] at h
      obtain ⟨i', hi', rfl⟩ := h
      obtain ⟨h1, h2, h3⟩ := ih i' hi'
      refine ⟨by simp; omega, by simpa using h2, ?_⟩
      intro j hj
      match j with
      | 0 =>
        simp only [List.get?_cons_zero]
        intro hcontra
        exact hb (by injection hcontra)
      | j' + 1 =>
        simp only [List.get?_cons_succ]
        exact h3 j' (by omega)

theorem firstETX_append (a b : List Nat) (ha : firstETX a = none) :
    firstETX (a ++ b) = (firstETX b).map (· + a.length) := by
  induction a with
  | nil =>
    simp only [List.nil_append, List.length_nil]
    cases firstETX b <;> simp
  | cons x xs ih =>
    simp only [firstETX, List.cons_append] at ha ⊢
    by_cases hx : x = 3
    · simp [hx] at ha
    · simp only [hx, if_false] at ha ⊢
      have ha' : firstETX xs = none := by
        cases hfe : firstETX xs
        · rfl
        · rw [hfe] at ha
          simp at ha
      simp only [List.append_eq]
      rw [ih ha']
      cases firstETX b with
      | none => rfl
      | some i =>
        simp only [Option.map_some', List.length_cons, Option.some.injEq]
        omega

theorem lineFillLoop_spec :
    ∀ (chunks : List (List Nat)) (buf : List Nat), firstETX buf = none →
    ∀ post buf2 rest, lineFillLoop buf chunks = some (post, buf2, rest) →
    ∃ consumed, chunks = consumed ++ rest ∧ buf2 = buf ++ consumed.flatten ∧
      1 ≤ post ∧ firstETX buf2 = some (post - 1) := by
  intro chunks
  induction chunks with
  | nil =>
    intro buf _ post buf2 rest h
    simp [lineFillLoop] at h
  | cons c cs ih =>
    intro buf hb post buf2 rest h
    simp only [lineFillLoop] at h
    by_cases hc : c = []
    · simp [hc] at h
    · simp only [hc, if_false] at h
      cases he : firstETX c with
      | some p =>
        rw [he] at h
        simp only [Option.some.injEq, Prod.mk.injEq] at h
        obtain ⟨hpost, hbuf2, hrest⟩ := h
        subst hpost
        subst hbuf2
        subst hrest
        refine ⟨[c], rfl, by simp, by omega, ?_⟩
        rw [firstETX_append buf c hb, he]
        simp only [Option.map_some']
        congr 1
        omega
      | none =>
        rw [he] at h
        have hbc : firstETX (buf ++ c) = none := by
          rw [firstETX_append buf c hb, he]
          rfl
        obtain ⟨consumed, h1, h2, h3, h4⟩ := ih (buf ++ c) hbc post buf2 rest h
        refine ⟨c :: consumed, by rw [List.cons_append, ← h1], ?_, h3, h4⟩
        rw [h2]
        simp [List.append_assoc]

theorem take_dropLast_of_lt (l : List Nat) (p : Nat) (hp : p < l.length) :
    (l.take (p + 1)).dropLast = l.take p := by
  rw [List.dropLast_eq_take, List.length_take, List.take_take]
  congr 1
  omega

/-- line_with success characterization: the payload is the frame up to the
first end-of-text byte of the consumed stream, everything up to and
including the first start-of-text byte discarded; the bytes after the
end-of-text byte stay buffered and later chunks stay unconsumed. -/
theorem lineWith_ok (buf : List Nat) (chunks : List (List Nat)) (r : LineResult)
    (h : lineWith buf chunks = .ok r) :
    ∃ consumed p, chunks = consumed ++ r.rest ∧
      firstETX (buf ++ consumed.flatten) = some p ∧
      r.newBuf = (buf ++ consumed.flatten).drop (p + 1) ∧
      r.string = framePayload ((buf ++ consumed.flatten).take p) := by
  unfold lineWith at h
  cases hf : lineFill buf chunks with
  | none =>
    rw [hf] at h
    exact absurd h (by simp)
  | some v =>
    obtain ⟨post, buf2, rest⟩ := v
    rw [hf] at h
    simp only [Except.ok.injEq] at h
    unfold lineFill at hf
    cases hb : firstETX buf with
    | some p =>
      rw [hb] at hf
      simp only [Option.some.injEq, Prod.mk.injEq] at hf
      obtain ⟨hpost, hbuf2, hrest⟩ := hf
      subst hpost
      subst hbuf2
      subst hrest
      obtain ⟨hlt, _, _⟩ := firstETX_spec buf p hb
      refine ⟨[], p, ?_, by simpa using hb, ?_, ?_⟩
      · simp [← h]
      · rw [← h]
        simp
      · rw [← h]
        simp only [List.flatten_nil, List.append_nil]
        rw [take_dropLast_of_lt buf p hlt]
        unfold framePayload
        cases firstSTX (buf.take p) <;> simp
    | none =>
      rw [hb] at hf
      obtain ⟨consumed, h1, h2, h3, h4⟩ :=
        lineFillLoop_spec chunks buf hb post buf2 rest hf
      obtain ⟨hlt, _, _⟩ := firstETX_spec buf2 (post - 1) h4
      have hp1 : post - 1 + 1 = post := by omega
      refine ⟨consumed, post - 1, ?_, ?_, ?_, ?_⟩
      · rw [h1, ← h]
      · rw [← h2]
        exact h4
      · rw [← h, ← h2]
        simp only [hp1]
      · rw [← h, ← h2]
        simp only
        rw [← hp1, take_dropLast_of_lt buf2 (post - 1) hlt]
        cases h5 : firstSTX (buf2.take (post - 1)) <;>
          simp [framePayload, h5]

theorem lineFillLoop_closed :
    ∀ (chunks : List (List Nat)) (buf : List Nat),
    (∀ c ∈ chunks, ∀ x ∈ c, x ≠ 3) → lineFillLoop buf chunks = none := by
  intro chunks
  induction chunks with
  | nil => intro buf _; rfl
  | cons c cs ih =>
    intro buf h
    simp only [lineFillLoop]
    by_cases hc : c = []
    · simp [hc]
    · simp only [hc, if_false]
      rw [(firstETX_eq_none_iff c).mpr (h c (by simp))]
      exact ih _ (fun c' hc' => h c' (by simp [hc']))

/-- line_with failure: a stream closing before any end-of-text byte is found
is a broken-pipe I/O error. -/
theorem lineWith_closed (buf : List Nat) (chunks : List (List Nat))
    (h1 : ∀ x ∈ buf, x ≠ 3) (h2 : ∀ c ∈ chunks, ∀ x ∈ c, x ≠ 3) :
    lineWith buf chunks = .error .brokenPipe := by
  unfold lineWith lineFill
  rw [(firstETX_eq_none_iff buf).mpr h1, lineFillLoop_closed chunks buf h2]

/-- C8 (amended): one call to the line reader consumes the stream through the
first end-of-text byte 0x03 and returns as payload the bytes of the frame
strictly after the first start-of-text byte 0x02 of the frame (the whole
frame when there is none), with everything up to and including that byte
discarded and the terminator stripped; the bytes past the terminator remain
buffered.  A stream that closes before an end-of-text byte appears fails
with an I/O error. -/
theorem line_with_spec :
    (∀ (buf : List Nat) (chunks : List (List Nat)) (r : LineResult),
      lineWith buf chunks = .ok r →
      ∃ consumed p, chunks = consumed ++ r.rest ∧
        firstETX (buf ++ consumed.flatten) = some p ∧
        r.newBuf = (buf ++ consumed.flatten).drop (p + 1) ∧
        r.string = framePayload ((buf ++ consumed.flatten).take p)) ∧
    (∀ (buf : List Nat) (chunks : List (List Nat)),
      (∀ x ∈ buf, x ≠ 3) → (∀ c ∈ chunks, ∀ x ∈ c, x ≠ 3) →
      lineWith buf chunks = .error .brokenPipe) :=
  ⟨lineWith_ok, lineWith_closed⟩

/-- Witness for C8: evaluating the characterization on a concrete split
stream: buffered noise byte, then the frame arriving across two chunks. -/
theorem line_with_spec_witness :
    ∃ consumed p, ([[2, 65], [66, 3, 9]] : List (List Nat)) = consumed ++ [] ∧
      firstETX ([] ++ consumed.flatten) = some p ∧
      ([9] : List Nat) = ([] ++ consumed.flatten).drop (p + 1) ∧
      ([65, 66] : List Nat) = framePayload (([] ++ consumed.flatten).take p) := by
  have h := line_with_spec.1 [] [[2, 65], [66, 3, 9]]
    { start := [2], string := [65, 66], newBuf := [9], rest := [] } (by decide)
  exact h

/-- C8 (counterexample): with two start-of-text bytes in one frame the reader
keeps everything after the first one, not after the last one: the claim's
payload reading differs from the code on the frame 02 41 02 42 03. -/
theorem line_with_last_stx_cex :
    lineWith [2, 65, 2, 66, 3] [] =
      .ok { start := [2], string := [65, 2, 66], newBuf := [], rest := [] } ∧
    lastStxPayload [2, 65, 2, 66] = [66] ∧
    ([65, 2, 66] : List Nat) ≠ [66] := by
  refine ⟨by decide, by decide, by decide⟩

/-! ## C6 -/

theorem writeLinesAll_ok (ls : List String) :
    ∀ tx : WriteEnd, tx.failPlan = [] →
      writeLinesAll ls tx = (none, ⟨[], tx.sent ++ concatAll ls⟩) := by
  induction ls with
  | nil =>
    intro tx h
    obtain ⟨fp, sent⟩ := tx
    simp only at h
    subst h
    simp [writeLinesAll, concatAll]
  | cons l rest ih =>
    intro tx h
    obtain ⟨fp, sent⟩ := tx
    simp only at h
    subst h
    simp only [writeLinesAll, writeAll]
    rw [ih ⟨[], sent ++ l⟩ rfl]
    simp [concatAll, String.append_assoc]

theorem splitNLChars_ne_nil : ∀ l : List Char, splitNLChars l ≠ [] := by
  intro l
  induction l with
  | nil => simp [splitNLChars]
  | cons c rest ih =>
    simp only [splitNLChars]
    by_cases hc : c = '\n'
    · simp [hc]
    · simp only [hc, if_false]
      cases h : splitNLChars rest with
      | nil => exact absurd h ih
      | cons g gs => simp

theorem splitNLChars_no_nl (l : List Char) (h : '\n' ∉ l) : splitNLChars l = [l] := by
  induction l with
  | nil => rfl
  | cons c rest ih =>
    simp only [splitNLChars]
    have hc : ¬ c = '\n' := fun hcc => h (by simp [hcc])
    simp only [hc, if_false]
    rw [ih (fun hm => h (by simp [hm]))]

theorem splitNLChars_append (a b : List Char) (h : '\n' ∉ a) :
    splitNLChars (a ++ '\n' :: b) = a :: splitNLChars b := by
  induction a with
  | nil => simp [splitNLChars]
  | cons c rest ih =>
    have hc : ¬ c = '\n' := fun hcc => h (by simp [hcc])
    simp only [List.cons_append, splitNLChars, hc, if_false, List.append_eq]
    rw [ih (fun hm => h (by simp [hm]))]

theorem stripCR_no_cr (l : List Char) (h : '\r' ∉ l) : stripCR l = l := by
  unfold stripCR
  cases hg : l.getLast? with
  | none => rfl
  | some c =>
    have hm : c ∈ l := by
      have hmem : c ∈ l.getLast? := Option.mem_def.mpr hg
      have hl := List.dropLast_append_getLast? c hmem
      rw [← hl]
      simp
    have : ¬ c = '\r' := fun hcc => h (hcc ▸ hm)
    simp [this]

/-- The characters written survive the lines() round trip: concatenating the
lines of the newline-joined pieces gives back the concatenation of the
pieces, provided no piece contains a newline or carriage return. -/
theorem rustLinesCore_join (encs : List (List Char))
    (h : ∀ e ∈ encs, '\n' ∉ e ∧ '\r' ∉ e) :
    concatChars (rustLinesCore (splitNLChars (joinCharsSep encs))) = concatChars encs := by
  induction encs with
  | nil => rfl
  | cons x rest ih =>
    match rest with
    | [] =>
      show concatChars (rustLinesCore (splitNLChars x)) = concatChars [x]
      rw [splitNLChars_no_nl x (h x (by simp)).1]
      by_cases hx : x = []
      · subst hx
        rfl
      · simp [rustLinesCore, hx, concatChars]
    | y :: rest' =>
      show concatChars (rustLinesCore (splitNLChars (x ++ '\n' :: joinCharsSep (y :: rest'))))
        = concatChars (x :: y :: rest')
      rw [splitNLChars_append x _ (h x (by simp)).1]
      obtain ⟨s, ss, hss⟩ : ∃ s ss, splitNLChars (joinCharsSep (y :: rest')) = s :: ss := by
        cases hsp : splitNLChars (joinCharsSep (y :: rest')) with
        | nil => exact absurd hsp (splitNLChars_ne_nil _)
        | cons s ss => exact ⟨s, ss, rfl⟩
      rw [hss]
      show stripCR x ++ concatChars (rustLinesCore (s :: ss)) = _
      rw [stripCR_no_cr x (h x (by simp)).2, ← hss,
        ih (fun e he => h e (by simp [he]))]
      rfl

theorem data_append (a b : String) : (a ++ b).data = a.data ++ b.data := by
  obtain ⟨da⟩ := a
  obtain ⟨db⟩ := b
  rfl

theorem joinSep_data (l : List String) :
    (joinSep ("\n") l).data = joinCharsSep (l.map String.data) := by
  match l with
  | [] => rfl
  | [x] => rfl
  | x :: y :: rest =>
    show (x ++ "\n" ++ joinSep ("\n") (y :: rest)).data = _
    rw [data_append, data_append, joinSep_data (y :: rest),
      show ("\n" : String).data = ['\x0a'] by decide, List.append_assoc]
    rfl

theorem concatAll_map_mk (ps : List (List Char)) :
    concatAll (ps.map String.mk) = ⟨concatChars ps⟩ := by
  induction ps with
  | nil => rfl
  | cons p rest ih =>
    show String.mk p ++ concatAll (rest.map String.mk) = _
    rw [ih]
    rfl

theorem concatChars_map_data (l : List String) :
    concatChars (l.map String.data) = (concatAll l).data := by
  induction l with
  | nil => rfl
  | cons s rest ih =>
    show s.data ++ concatChars (rest.map String.data) = (s ++ concatAll rest).data
    rw [ih, data_append]

/-- The transcript written by the line loop of send equals the concatenation
of the command encodings whenever none of them contains a newline or a
carriage return. -/
theorem rustLines_concat (seq : List ZplCommand)
    (hnl : ∀ c ∈ seq, '\n' ∉ (encodeCommand c).data ∧ '\r' ∉ (encodeCommand c).data) :
    concatAll (rustLines (encodeSequence seq)) = concatAll (seq.map encodeCommand) := by
  unfold rustLines encodeSequence
  rw [concatAll_map_mk, joinSep_data]
  rw [show (seq.map encodeCommand).map String.data
      = seq.map (String.data ∘ encodeCommand) from List.map_map _ _ _]
  rw [rustLinesCore_join _ ?hh]
  case hh =>
    intro e he
    obtain ⟨c, hc, rfl⟩ := List.mem_map.mp he
    exact hnl c hc
  rw [show seq.map (String.data ∘ encodeCommand)
      = (seq.map encodeCommand).map String.data from (List.map_map _ _ _).symm]
  rw [concatChars_map_data]

/-- C6 (counterexample): send writes the commands back-to-back with the
newline separators of the joined encoding stripped: for the sequence
print-width 684, label-length 384 the wire carries ^PW684^LL0384 while the
newline-joined encoding is ^PW684 newline ^LL0384. -/
theorem send_not_newline_separated :
    (sendWithResponse [.SetPrintWidth 684, .SetLabelLength 384]
      ⟨[], ""⟩ ⟨[], []⟩).2.1.sent = "^PW684^LL0384" ∧
    encodeSequence [.SetPrintWidth 684, .SetLabelLength 384] = "^PW684\n^LL0384" ∧
    ("^PW684^LL0384" : String) ≠ "^PW684\n^LL0384" := by
  refine ⟨by decide, by decide, by decide⟩

/-- C6 (amended): for every command sequence whose individual encodings
contain no newline and no carriage return, a successful send writes to the
socket exactly the concatenation of the individual command encodings — the
newline separators of the joined sequence encoding are split away and never
re-added, so the commands are not newline-separated on the wire. -/
theorem send_writes_concatenation (seq : List ZplCommand) (tx : WriteEnd) (rx : ReadEnd)
    (hplan : tx.failPlan = [])
    (hnl : ∀ c ∈ seq, '\n' ∉ (encodeCommand c).data ∧ '\r' ∉ (encodeCommand c).data)
    (hok : (sendWithResponse seq tx rx).1 = .ok ()) :
    (sendWithResponse seq tx rx).2.1.sent
      = tx.sent ++ concatAll (seq.map encodeCommand) := by
  unfold sendWithResponse at hok ⊢
  rw [writeLinesAll_ok _ tx hplan] at hok ⊢
  cases hr : readLines (totalExpectedResponseLines seq) rx with
  | error e =>
    rw [hr] at hok
    simp at hok
  | ok v =>
    obtain ⟨ls, rx'⟩ := v
    rw [rustLines_concat seq hnl]

/-- Witness for C6 (amended): the concrete two-command sequence sent over a
fresh write end. -/
theorem send_writes_concatenation_witness :
    (sendWithResponse [.SetPrintWidth 684, .SetLabelLength 384]
      ⟨[], ""⟩ ⟨[], []⟩).2.1.sent
      = "" ++ concatAll ([ZplCommand.SetPrintWidth 684,
          ZplCommand.SetLabelLength 384].map encodeCommand) :=
  send_writes_concatenation [.SetPrintWidth 684, .SetLabelLength 384]
    ⟨[], ""⟩ ⟨[], []⟩ rfl (by decide) (by decide)

/-! ## C5 -/

theorem readLines_length :
    ∀ (n : Nat) (rx : ReadEnd) (ls : List (List Nat)) (rx' : ReadEnd),
      readLines n rx = .ok (ls, rx') → ls.length = n := by
  intro n
  induction n with
  | zero =>
    intro rx ls rx' h
    simp only [readLines, Except.ok.injEq, Prod.mk.injEq] at h
    rw [← h.1]
    rfl
  | succ k ih =>
    intro rx ls rx' h
    simp only [readLines] at h
    cases h1 : readLineW rx with
    | error e =>
      rw [h1] at h
      exact absurd h (by simp)
    | ok v =>
      obtain ⟨l, rx1⟩ := v
      rw [h1] at h
      simp only [] at h
      cases h2 : readLines k rx1 with
      | error e =>
        rw [h2] at h
        exact absurd h (by simp)
      | ok w =>
        obtain ⟨ls2, rx2⟩ := w
        rw [h2] at h
        simp only [Except.ok.injEq, Prod.mk.injEq] at h
        obtain ⟨hc, _⟩ := h
        rw [← hc]
        simp [ih rx1 ls2 rx2 h2]

theorem readLines_append (m k : Nat) :
    ∀ (rx : ReadEnd) (ls : List (List Nat)) (rx1 : ReadEnd)
      (ls' : List (List Nat)) (rx2 : ReadEnd),
      readLines m rx = .ok (ls, rx1) → readLines k rx1 = .ok (ls', rx2) →
      readLines (m + k) rx = .ok (ls ++ ls', rx2) := by
  induction m with
  | zero =>
    intro rx ls rx1 ls' rx2 h1 h2
    simp only [readLines, Except.ok.injEq, Prod.mk.injEq] at h1
    obtain ⟨hls, hrx⟩ := h1
    subst hls
    subst hrx
    rw [Nat.zero_add, List.nil_append]
    exact h2
  | succ j ih =>
    intro rx ls rx1 ls' rx2 h1 h2
    simp only [readLines] at h1
    cases hl : readLineW rx with
    | error e =>
      rw [hl] at h1
      exact absurd h1 (by simp)
    | ok v =>
      obtain ⟨l, rxa⟩ := v
      rw [hl] at h1
      simp only [] at h1
      cases hrest : readLines j rxa with
      | error e =>
        rw [hrest] at h1
        exact absurd h1 (by simp)
      | ok w =>
        obtain ⟨lsr, rxb⟩ := w
        rw [hrest] at h1
        simp only [Except.ok.injEq, Prod.mk.injEq] at h1
        obtain ⟨hcons, hrxb⟩ := h1
        subst hcons
        subst hrxb
        rw [Nat.succ_add]
        simp only [readLines]
        rw [hl]
        simp only []
        rw [ih rxa lsr rxb ls' rx2 hrest h2]
        rfl

/-- stepCommand succeeds exactly when its reads succeed; the lines are those
read from the read end. -/
theorem stepCommand_ok (c : ZplCommand) (tx : WriteEnd) (rx : ReadEnd)
    (ls : List (List Nat)) (tx' : WriteEnd) (rx' : ReadEnd)
    (h : stepCommand c tx rx = .ok (ls, tx', rx')) :
    readLines (expectedResponseLines c) rx = .ok (ls, rx') := by
  unfold stepCommand at h
  cases hw : writeAll tx (encodeSequence [c]) with
  | error e =>
    rw [hw] at h
    exact absurd h (by simp)
  | ok txw =>
    rw [hw] at h
    cases hr : readLines (expectedResponseLines c) rx with
    | error e =>
      rw [hr] at h
      exact absurd h (by simp)
    | ok v =>
      obtain ⟨ls0, rx0⟩ := v
      rw [hr] at h
      simp only [Except.ok.injEq, Prod.mk.injEq] at h
      obtain ⟨h1, _, h3⟩ := h
      subst h1
      subst h3
      rfl

theorem requestDeviceStatus_err1 (p : PrinterState) (tx : WriteEnd) (rx : ReadEnd)
    (e : IOErr) (h : stepCommand .RequestHostIdentification tx rx = .error e) :
    requestDeviceStatus p tx rx = (.error e, p, tx, rx) := by
  unfold requestDeviceStatus
  rw [h]

theorem requestDeviceStatus_err2 (p : PrinterState) (tx : WriteEnd) (rx : ReadEnd)
    (ls1 : List (List Nat)) (tx1 : WriteEnd) (rx1 : ReadEnd) (e : IOErr)
    (h1 : stepCommand .RequestHostIdentification tx rx = .ok (ls1, tx1, rx1))
    (h2 : stepCommand .RequestHostStatus tx1 rx1 = .error e) :
    requestDeviceStatus p tx rx = (.error e, p, tx1, rx1) := by
  unfold requestDeviceStatus
  rw [h1]
  simp only []
  rw [h2]

theorem requestDeviceStatus_err3 (p : PrinterState) (tx : WriteEnd) (rx : ReadEnd)
    (ls1 ls2 : List (List Nat)) (tx1 tx2 : WriteEnd) (rx1 rx2 : ReadEnd) (e : IOErr)
    (h1 : stepCommand .RequestHostIdentification tx rx = .ok (ls1, tx1, rx1))
    (h2 : stepCommand .RequestHostStatus tx1 rx1 = .ok (ls2, tx2, rx2))
    (h3 : stepCommand .RequestHostRamStatus tx2 rx2 = .error e) :
    requestDeviceStatus p tx rx = (.error e, p, tx2, rx2) := by
  unfold requestDeviceStatus
  rw [h1]
  simp only []
  rw [h2]
  simp only []
  rw [h3]

theorem requestDeviceStatus_all_ok (p : PrinterState) (tx : WriteEnd) (rx : ReadEnd)
    (ls1 ls2 ls3 : List (List Nat)) (tx1 tx2 tx3 : WriteEnd) (rx1 rx2 rx3 : ReadEnd)
    (h1 : stepCommand .RequestHostIdentification tx rx = .ok (ls1, tx1, rx1))
    (h2 : stepCommand .RequestHostStatus tx1 rx1 = .ok (ls2, tx2, rx2))
    (h3 : stepCommand .RequestHostRamStatus tx2 rx2 = .ok (ls3, tx3, rx3)) :
    requestDeviceStatus p tx rx =
      (.ok (buildHostStatus ((ls1 ++ ls2 ++ ls3).getD 0 []) ((ls1 ++ ls2 ++ ls3).getD 1 [])
          ((ls1 ++ ls2 ++ ls3).getD 2 []) ((ls1 ++ ls2 ++ ls3).getD 3 [])
          ((ls1 ++ ls2 ++ ls3).getD 4 [])),
        ⟨some (buildHostStatus ((ls1 ++ ls2 ++ ls3).getD 0 []) ((ls1 ++ ls2 ++ ls3).getD 1 [])
          ((ls1 ++ ls2 ++ ls3).getD 2 []) ((ls1 ++ ls2 ++ ls3).getD 3 [])
          ((ls1 ++ ls2 ++ ls3).getD 4 []))⟩, tx3, rx3) := by
  unfold requestDeviceStatus
  rw [h1]
  simp only []
  rw [h2]
  simp only []
  rw [h3]

/-- C5: request_device_status is atomic with respect to the stored snapshot:
when any interleaved write-or-read step fails the whole query returns that
error and the stored status is unchanged; on success the snapshot stored is
built fresh from defaults out of exactly the five response lines read from
the stream (and is therefore independent of the previous printer state). -/
theorem request_device_status_atomic (p : PrinterState) (tx : WriteEnd) (rx : ReadEnd) :
    (∀ e : IOErr, (requestDeviceStatus p tx rx).1 = .error e →
      (requestDeviceStatus p tx rx).2.1 = p) ∧
    (∀ info : HostStatus, (requestDeviceStatus p tx rx).1 = .ok info →
      (requestDeviceStatus p tx rx).2.1.status = some info ∧
      (∀ q : PrinterState, (requestDeviceStatus q tx rx).1 = .ok info) ∧
      ∃ (ls : List (List Nat)) (rxEnd : ReadEnd),
        readLines 5 rx = .ok (ls, rxEnd) ∧ ls.length = 5 ∧
        info = buildHostStatus (ls.getD 0 []) (ls.getD 1 []) (ls.getD 2 [])
          (ls.getD 3 []) (ls.getD 4 [])) := by
  cases h1 : stepCommand .RequestHostIdentification tx rx with
  | error e1 =>
    rw [requestDeviceStatus_err1 p tx rx e1 h1]
    constructor
    · intro e _
      rfl
    · intro info hinfo
      exact absurd hinfo (by simp)
  | ok v1 =>
    obtain ⟨ls1, tx1, rx1⟩ := v1
    cases h2 : stepCommand .RequestHostStatus tx1 rx1 with
    | error e2 =>
      rw [requestDeviceStatus_err2 p tx rx ls1 tx1 rx1 e2 h1 h2]
      constructor
      · intro e _
        rfl
      · intro info hinfo
        exact absurd hinfo (by simp)
    | ok v2 =>
      obtain ⟨ls2, tx2, rx2⟩ := v2
      cases h3 : stepCommand .RequestHostRamStatus tx2 rx2 with
      | error e3 =>
        rw [requestDeviceStatus_err3 p tx rx ls1 ls2 tx1 tx2 rx1 rx2 e3 h1 h2 h3]
        constructor
        · intro e _
          rfl
        · intro info hinfo
          exact absurd hinfo (by simp)
      | ok v3 =>
        obtain ⟨ls3, tx3, rx3⟩ := v3
        rw [requestDeviceStatus_all_ok p tx rx ls1 ls2 ls3 tx1 tx2 tx3 rx1 rx2 rx3 h1 h2 h3]
        constructor
        · intro e he
          exact absurd he (by simp)
        · intro info hinfo
          simp only [Except.ok.injEq] at hinfo
          subst hinfo
          have hr1 := stepCommand_ok _ _ _ _ _ _ h1
          have hr2 := stepCommand_ok _ _ _ _ _ _ h2
          have hr3 := stepCommand_ok _ _ _ _ _ _ h3
          have hc23 : readLines 4 rx1 = .ok (ls2 ++ ls3, rx3) :=
            readLines_append 3 1 rx1 ls2 rx2 ls3 rx3 hr2 hr3
          have hc : readLines 5 rx = .ok (ls1 ++ (ls2 ++ ls3), rx3) :=
            readLines_append 1 4 rx ls1 rx1 (ls2 ++ ls3) rx3 hr1 hc23
          refine ⟨rfl, fun q => by
            rw [requestDeviceStatus_all_ok q tx rx ls1 ls2 ls3 tx1 tx2 tx3 rx1 rx2 rx3 h1 h2 h3],
            ls1 ++ ls2 ++ ls3, rx3, ?_, ?_, rfl⟩
          · rw [List.append_assoc]
            exact hc
          · have e1 : ls1.length = 1 := readLines_length 1 rx ls1 rx1 hr1
            have e2 : ls2.length = 3 := readLines_length 3 rx1 ls2 rx2 hr2
            have e3 : ls3.length = 1 := readLines_length 1 rx2 ls3 rx3 hr3
            simp [e1, e2, e3]

/-- Witness for C5: a wire holding five framed lines; the query stores the
snapshot parsed from exactly those lines. -/
theorem request_device_status_atomic_witness :
    (requestDeviceStatus ⟨none⟩ ⟨[], ""⟩
        ⟨[], [[49, 3, 50, 3, 51, 3, 52, 3, 53, 3]]⟩).2.1.status
      = some (buildHostStatus [49] [50] [51] [52] [53]) :=
  ((request_device_status_atomic ⟨none⟩ ⟨[], ""⟩
      ⟨[], [[49, 3, 50, 3, 51, 3, 52, 3, 53, 3]]⟩).2
    (buildHostStatus [49] [50] [51] [52] [53]) (by decide)).1

end Zpl
